import Mathlib

/-!
Shallow embedding of the SVGD engine (`main.py`) and its RBF kernel
(`kernels.py`) from the `svgd-tf2` repository.

Particle matrices are `Fin n → Fin d → ℚ`: every float64 tensor entry is a
rational number, and the distance / median / bandwidth-quotient pipeline is
exact rational arithmetic which we model exactly; `exp` and `log` are taken
over `ℝ`.  The one place IEEE float semantics differ from field arithmetic is
the kernel evaluation `exp(-0.5·D/bandwidth²)` when the bandwidth is `0`:
`0/0` is NaN and `exp(NaN) = NaN`, while `d/0 = ∞` with sign of `d` and
`exp(-∞) = 0`.  The type `FVal` records that distinction.
-/

/-- The 3-tensor `distance` of `euclideanPairwiseDistance` (kernels.py line 6):
`distance[i][j][k] = x[i][k] - stop_gradient(x)[j][k]`.  `stop_gradient`
leaves values unchanged; it only marks the second operand as a constant for
differentiation, which the tape model below honours. -/
def distTensor {n d : ℕ} (x : Fin n → Fin d → ℚ) : Fin n → Fin n → Fin d → ℚ :=
  fun i j k => x i k - x j k

/-- `tf.transpose` of a rank-3 tensor reverses the axes: entry `(k,j,i)` of
the transpose is entry `(i,j,k)` of the argument. -/
def transposeT {n d : ℕ} (t : Fin n → Fin n → Fin d → ℚ) : Fin d → Fin n → Fin n → ℚ :=
  fun k j i => t i j k

/-- `euclideanPairwiseDistance` (kernels.py lines 4-7): the einsum
`'ijk,kji->ij'` of `distance` with `tf.transpose(distance)`, i.e.
`out[i][j] = Σ_k distance[i][j][k] * transpose(distance)[k][j][i]`. -/
def euclideanPairwiseDistance {n d : ℕ} (x : Fin n → Fin d → ℚ) : Fin n → Fin n → ℚ :=
  fun i j => ∑ k, distTensor x i j k * transposeT (distTensor x) k j i

/-- Row-major flattening of the `n×n` distance tensor, the reduction order
`tfp.stats.percentile` uses when no axis is given. -/
def flattenPw {n : ℕ} (D : Fin n → Fin n → ℚ) : List ℚ :=
  (List.finRange n).flatMap fun i => (List.finRange n).map fun j => D i j

/-- `tfp.stats.percentile(t, 50.0, interpolation='midpoint')`: sort the `m`
entries ascending; the 50th-percentile position is `(m-1)/2`, and `'midpoint'`
averages the values at `⌊(m-1)/2⌋` and `⌈(m-1)/2⌉`.  In natural-number
division those two indices are `(m-1)/2` and `m/2` (equal when `m` is odd). -/
def percentile50Midpoint (l : List ℚ) : ℚ :=
  ((List.insertionSort (· ≤ ·) l).getD ((l.length - 1) / 2) 0 +
    (List.insertionSort (· ≤ ·) l).getD (l.length / 2) 0) / 2

/-- `RbfKernel.computeBandWidth` (kernels.py lines 16-22): the all-entries
median of the squared-distance matrix divided by `log(n+1)`, where
`n = euclideanPwDistances.shape[0]`. -/
noncomputable def RbfKernel.computeBandWidth {n : ℕ} (D : Fin n → Fin n → ℚ) : ℝ :=
  (percentile50Midpoint (flattenPw D) : ℝ) / Real.log ((n : ℝ) + 1)

/-- A float64 value that is either NaN or an (exactly represented) real. -/
inductive FVal where
  | nan : FVal
  | val : ℝ → FVal

/-- `RbfKernel.__call__` (kernels.py lines 10-14):
`exp(-0.5 * normedDist / bandwidth**2)` entrywise, with
`bandwidth = computeBandWidth(normedDist)` wrapped in `stop_gradient`.
The bandwidth is zero exactly when the median of the distance entries is zero
(for `n ≥ 1` the divisor `log(n+1)` is a nonzero finite float, and for `n = 0`
there is no tensor to evaluate), and in that case IEEE arithmetic gives
`-0.5·0/0² = NaN` on entries with `normedDist[i][j] = 0` and
`-0.5·d/0² = -∞`, `exp(-∞) = 0`, on entries with `normedDist[i][j] = d > 0`
(distance entries are sums of squares, hence never negative). -/
noncomputable def RbfKernel.call {n d : ℕ} (x : Fin n → Fin d → ℚ) : Fin n → Fin n → FVal :=
  fun i j =>
    let normedDist := euclideanPairwiseDistance x
    if percentile50Midpoint (flattenPw normedDist) = 0 then
      (if normedDist i j = 0 then FVal.nan else FVal.val 0)
    else
      FVal.val (Real.exp (-(1/2) * (normedDist i j : ℝ) /
        (RbfKernel.computeBandWidth normedDist) ^ 2))

/-- The real number `K[i][j] = exp(-0.5·D[i][j]/bandwidth²)` that
`RbfKernel.__call__` produces whenever the bandwidth is nonzero. -/
noncomputable def kernelValue {n d : ℕ} (x : Fin n → Fin d → ℚ) (i j : Fin n) : ℝ :=
  Real.exp (-(1/2) * (euclideanPairwiseDistance x i j : ℝ) /
    (RbfKernel.computeBandWidth (euclideanPairwiseDistance x)) ^ 2)

/-- `tape.gradient(kernelMatrix, [x])[0]` in `SVGD.computeKernel`
(main.py lines 18-21): the gradient tape differentiates the implicit sum of
all entries of `kernelMatrix` with respect to the entry `x[i][k]`, holding
every `stop_gradient`-wrapped quantity fixed at its value: the second operand
of the distance tensor and the bandwidth.  Entry `(p,q)` of the kernel matrix
is `exp(-0.5·Σ_m (x[p][m] - c[q][m])²/b²)` with `c` the stopped copy of `x`
and `b` the stopped bandwidth, so the tape gradient at `(i,k)` is the
derivative at `t = x[i][k]` of that sum with `t` substituted for the sole
differentiable occurrence `x[i][k]`. -/
noncomputable def tapeGradient {n d : ℕ} (x : Fin n → Fin d → ℚ) (i : Fin n) (k : Fin d) : ℝ :=
  deriv (fun t : ℝ => ∑ p : Fin n, ∑ q : Fin n,
      Real.exp (-(1/2) * (∑ m : Fin d,
          ((if p = i ∧ m = k then t else (x p m : ℝ)) - (x q m : ℝ)) ^ 2) /
        (RbfKernel.computeBandWidth (euclideanPairwiseDistance x)) ^ 2))
    ((x i k : ℝ))

/-- `SVGD.computeKernel` (main.py lines 18-21): returns the kernel matrix and
the NEGATION of the tape gradient (`-tape.gradient(kernelMatrix, [x])[0]`). -/
noncomputable def SVGD.computeKernel {n d : ℕ} (x : Fin n → Fin d → ℚ) :
    (Fin n → Fin n → FVal) × (Fin n → Fin d → ℝ) :=
  (RbfKernel.call x, fun i k => -tapeGradient x i k)

/-- Shorthand: the median pairwise squared distance of a particle matrix. -/
def pwMedian {n d : ℕ} (x : Fin n → Fin d → ℚ) : ℚ :=
  percentile50Midpoint (flattenPw (euclideanPairwiseDistance x))

lemma euclideanPairwiseDistance_eq {n d : ℕ} (x : Fin n → Fin d → ℚ) (i j : Fin n) :
    euclideanPairwiseDistance x i j = ∑ k, (x i k - x j k) ^ 2 := by
  unfold euclideanPairwiseDistance distTensor transposeT
  exact Finset.sum_congr rfl fun k _ => (sq (x i k - x j k)).symm

lemma euclideanPairwiseDistance_symm {n d : ℕ} (x : Fin n → Fin d → ℚ) (i j : Fin n) :
    euclideanPairwiseDistance x i j = euclideanPairwiseDistance x j i := by
  rw [euclideanPairwiseDistance_eq, euclideanPairwiseDistance_eq]
  exact Finset.sum_congr rfl fun k _ => by ring

lemma euclideanPairwiseDistance_nonneg {n d : ℕ} (x : Fin n → Fin d → ℚ) (i j : Fin n) :
    0 ≤ euclideanPairwiseDistance x i j := by
  rw [euclideanPairwiseDistance_eq]
  exact Finset.sum_nonneg fun k _ => sq_nonneg _

lemma euclideanPairwiseDistance_diag {n d : ℕ} (x : Fin n → Fin d → ℚ) (i : Fin n) :
    euclideanPairwiseDistance x i i = 0 := by
  rw [euclideanPairwiseDistance_eq]
  simp

lemma insertionSort_map_mul (c : ℚ) (hc : 0 < c) (l : List ℚ) :
    List.insertionSort (· ≤ ·) (l.map fun a => c * a) =
      (List.insertionSort (· ≤ ·) l).map fun a => c * a := by
  have h1 : List.Sorted (· ≤ ·) (List.insertionSort (· ≤ ·) (l.map fun a => c * a)) :=
    List.sorted_insertionSort _ _
  have h2 : List.Sorted (· ≤ ·) ((List.insertionSort (· ≤ ·) l).map fun a => c * a) :=
    List.Pairwise.map _ (fun a b hab => mul_le_mul_of_nonneg_left hab hc.le)
      (List.sorted_insertionSort _ l)
  exact List.eq_of_perm_of_sorted
    ((List.perm_insertionSort _ _).trans ((List.perm_insertionSort _ l).map _).symm) h1 h2

lemma getD_map_mul (c : ℚ) (l : List ℚ) (i : ℕ) :
    (l.map fun a => c * a).getD i 0 = c * l.getD i 0 := by
  rw [List.getD_eq_getD_get?, List.getD_eq_getD_get?, List.get?_map]
  cases l.get? i <;> simp

lemma percentile50Midpoint_map_mul (c : ℚ) (hc : 0 < c) (l : List ℚ) :
    percentile50Midpoint (l.map fun a => c * a) = c * percentile50Midpoint l := by
  unfold percentile50Midpoint
  rw [insertionSort_map_mul c hc, List.length_map, getD_map_mul, getD_map_mul]
  ring

lemma flattenPw_map {n : ℕ} (D : Fin n → Fin n → ℚ) (f : ℚ → ℚ) :
    flattenPw (fun i j => f (D i j)) = (flattenPw D).map f := by
  simp [flattenPw, List.map_flatMap, List.map_map, Function.comp_def]

lemma flattenPw_nil (D : Fin 0 → Fin 0 → ℚ) : flattenPw D = [] := rfl

lemma percentile50Midpoint_nil : percentile50Midpoint [] = 0 := by
  simp [percentile50Midpoint]

lemma pwMedian_pos_imp_n_pos {n d : ℕ} (x : Fin n → Fin d → ℚ)
    (h : 0 < pwMedian x) : 1 ≤ n := by
  by_contra hn
  have h0 : n = 0 := by omega
  subst h0
  rw [pwMedian, flattenPw_nil, percentile50Midpoint_nil] at h
  exact lt_irrefl 0 h

lemma computeBandWidth_pos {n d : ℕ} (x : Fin n → Fin d → ℚ)
    (hmed : 0 < pwMedian x) :
    0 < RbfKernel.computeBandWidth (euclideanPairwiseDistance x) := by
  have hn : 1 ≤ n := pwMedian_pos_imp_n_pos x hmed
  unfold RbfKernel.computeBandWidth
  apply div_pos (by exact_mod_cast hmed)
  apply Real.log_pos
  have : (1 : ℝ) ≤ n := by exact_mod_cast hn
  linarith

lemma computeBandWidth_of_median_eq_zero {n d : ℕ} (x : Fin n → Fin d → ℚ)
    (hmed : pwMedian x = 0) :
    RbfKernel.computeBandWidth (euclideanPairwiseDistance x) = 0 := by
  rw [pwMedian] at hmed
  simp [RbfKernel.computeBandWidth, hmed]

lemma RbfKernel.call_eq_val {n d : ℕ} (x : Fin n → Fin d → ℚ)
    (h : pwMedian x ≠ 0) (i j : Fin n) :
    RbfKernel.call x i j = FVal.val (kernelValue x i j) := by
  rw [pwMedian] at h
  simp [RbfKernel.call, kernelValue, h]

lemma kernelValue_pos {n d : ℕ} (x : Fin n → Fin d → ℚ) (i j : Fin n) :
    0 < kernelValue x i j :=
  Real.exp_pos _

lemma kernelValue_le_one {n d : ℕ} (x : Fin n → Fin d → ℚ)
    (h : 0 < pwMedian x) (i j : Fin n) : kernelValue x i j ≤ 1 := by
  have hb := computeBandWidth_pos x h
  have hexp : -(1/2) * (euclideanPairwiseDistance x i j : ℝ) /
      (RbfKernel.computeBandWidth (euclideanPairwiseDistance x)) ^ 2 ≤ 0 := by
    apply div_nonpos_of_nonpos_of_nonneg
    · have hD : (0 : ℝ) ≤ (euclideanPairwiseDistance x i j : ℝ) := by
        exact_mod_cast euclideanPairwiseDistance_nonneg x i j
      linarith
    · positivity
  calc kernelValue x i j ≤ Real.exp 0 := Real.exp_le_exp.mpr hexp
    _ = 1 := Real.exp_zero

lemma kernelValue_diag {n d : ℕ} (x : Fin n → Fin d → ℚ) (i : Fin n) :
    kernelValue x i i = 1 := by
  rw [kernelValue, euclideanPairwiseDistance_diag]
  simp

lemma kernelValue_symm {n d : ℕ} (x : Fin n → Fin d → ℚ) (i j : Fin n) :
    kernelValue x i j = kernelValue x j i := by
  rw [kernelValue, kernelValue, euclideanPairwiseDistance_symm]

lemma euclideanPairwiseDistance_smul {n d : ℕ} (x : Fin n → Fin d → ℚ) (c : ℚ) (i j : Fin n) :
    euclideanPairwiseDistance (fun p m => c * x p m) i j =
      c ^ 2 * euclideanPairwiseDistance x i j := by
  rw [euclideanPairwiseDistance_eq, euclideanPairwiseDistance_eq, Finset.mul_sum]
  exact Finset.sum_congr rfl fun k _ => by ring

lemma euclideanPairwiseDistance_smul_fun {n d : ℕ} (x : Fin n → Fin d → ℚ) (c : ℚ) :
    euclideanPairwiseDistance (fun p m => c * x p m) =
      fun i j => c ^ 2 * euclideanPairwiseDistance x i j := by
  funext i j
  exact euclideanPairwiseDistance_smul x c i j

lemma pwMedian_smul {n d : ℕ} (x : Fin n → Fin d → ℚ) (c : ℚ) (hc : 0 < c) :
    pwMedian (fun p m => c * x p m) = c ^ 2 * pwMedian x := by
  unfold pwMedian
  rw [euclideanPairwiseDistance_smul_fun, flattenPw_map,
    percentile50Midpoint_map_mul _ (by positivity)]

lemma computeBandWidth_smul {n d : ℕ} (x : Fin n → Fin d → ℚ) (c : ℚ) (hc : 0 < c) :
    RbfKernel.computeBandWidth (euclideanPairwiseDistance fun p m => c * x p m) =
      (c : ℝ) ^ 2 * RbfKernel.computeBandWidth (euclideanPairwiseDistance x) := by
  unfold RbfKernel.computeBandWidth
  rw [euclideanPairwiseDistance_smul_fun, flattenPw_map,
    percentile50Midpoint_map_mul _ (by positivity)]
  push_cast
  ring

lemma kernelValue_smul {n d : ℕ} (x : Fin n → Fin d → ℚ) (c : ℚ) (hc : 0 < c) (i j : Fin n) :
    kernelValue (fun p m => c * x p m) i j =
      kernelValue x i j ^ (((c : ℝ) ^ 2)⁻¹) := by
  rw [kernelValue, kernelValue, Real.rpow_def_of_pos (Real.exp_pos _), Real.log_exp,
    Real.exp_eq_exp, euclideanPairwiseDistance_smul, computeBandWidth_smul x c hc]
  have hc' : ((c : ℝ)) ≠ 0 := by exact_mod_cast hc.ne'
  push_cast
  rcases eq_or_ne (RbfKernel.computeBandWidth (euclideanPairwiseDistance x)) 0 with hb | hb
  · rw [hb]
    simp
  · field_simp
    ring

/-- Model of the `SVGD` class of main.py.  Its constructor stores three
injected collaborators: the kernel, the target distribution and the Adam
optimizer.  In this embedding each collaborator is modelled by what `update`
extracts from it:
* `computeKernelFn` models `self.computeKernel` applied to the injected
  kernel — the kernel matrix together with the negated tape gradient;
* `logprobGradientFn` models `self.logprobGradient`, the tape gradient of
  `log(targetDistribution(x))`;
* `applyGradients` models `self.optimizer.apply_gradients([(grad, x)])`;
  the Adam optimizer carries hidden internal state of some type `σ` across
  calls, so it maps (state, gradient, params) to (state, params). -/
structure SVGD (n d : ℕ) (σ : Type) where
  computeKernelFn : (Fin n → Fin d → ℝ) → (Fin n → Fin n → ℝ) × (Fin n → Fin d → ℝ)
  logprobGradientFn : (Fin n → Fin d → ℝ) → (Fin n → Fin d → ℝ)
  applyGradients : σ → (Fin n → Fin d → ℝ) → (Fin n → Fin d → ℝ) → σ × (Fin n → Fin d → ℝ)

/-- One pass of the loop body of `SVGD.update` (main.py lines 10-15):
compute the kernel matrix and kernel gradient, the log-probability gradient,
combine them into `completeGrad = -(kernelMatrix @ logprobGradient +
kernelGrad) / x.shape[0]` and hand the pair to the optimizer. -/
noncomputable def SVGD.updateBody {n d : ℕ} {σ : Type} (S : SVGD n d σ) :
    ((Fin n → Fin d → ℝ) × σ) → ((Fin n → Fin d → ℝ) × σ) :=
  fun p =>
    let kernelMatrix := (S.computeKernelFn p.1).1
    let kernelGrad := (S.computeKernelFn p.1).2
    let logprobGrad := S.logprobGradientFn p.1
    let completeGrad : Fin n → Fin d → ℝ :=
      fun i k => -((∑ j, kernelMatrix i j * logprobGrad j k) + kernelGrad i k) / n
    let step := S.applyGradients p.2 completeGrad p.1
    (step.2, step.1)

/-- `SVGD.update` (main.py lines 9-16): `for _ in range(nIterations): ...;
return x`.  Python's `range(m)` for an integer `m` iterates `max(m, 0)`
times, i.e. `m.toNat` times; in particular it is empty for `m ≤ 0`. -/
noncomputable def SVGD.update {n d : ℕ} {σ : Type} (S : SVGD n d σ) (x : Fin n → Fin d → ℝ)
    (s : σ) (nIterations : ℤ) : Fin n → Fin d → ℝ :=
  ((SVGD.updateBody S)^[nIterations.toNat] (x, s)).1

lemma real_dist_cast {n d : ℕ} (x : Fin n → Fin d → ℚ) (i j : Fin n) :
    ((euclideanPairwiseDistance x i j : ℚ) : ℝ) =
      ∑ m : Fin d, ((x i m : ℝ) - (x j m : ℝ)) ^ 2 := by
  rw [euclideanPairwiseDistance_eq]
  push_cast
  rfl

lemma tapeGradient_eq {n d : ℕ} (x : Fin n → Fin d → ℚ) (i : Fin n) (k : Fin d) :
    tapeGradient x i k = ∑ j, kernelValue x i j *
      (((x j k : ℝ) - (x i k : ℝ)) /
        (RbfKernel.computeBandWidth (euclideanPairwiseDistance x)) ^ 2) := by
  have main : HasDerivAt (fun t : ℝ => ∑ p : Fin n, ∑ q : Fin n,
      Real.exp (-(1/2) * (∑ m : Fin d,
          ((if p = i ∧ m = k then t else (x p m : ℝ)) - (x q m : ℝ)) ^ 2) /
        (RbfKernel.computeBandWidth (euclideanPairwiseDistance x)) ^ 2))
      (∑ p : Fin n, ∑ q : Fin n, (if p = i then
          Real.exp (-(1/2) * (∑ m : Fin d, ((x i m : ℝ) - (x q m : ℝ)) ^ 2) /
            (RbfKernel.computeBandWidth (euclideanPairwiseDistance x)) ^ 2) *
            (((x q k : ℝ) - (x i k : ℝ)) /
              (RbfKernel.computeBandWidth (euclideanPairwiseDistance x)) ^ 2) else 0))
      ((x i k : ℝ)) := by
    apply HasDerivAt.sum
    intro p _
    apply HasDerivAt.sum
    intro q _
    by_cases hp : p = i
    · subst hp
      rw [if_pos rfl]
      simp only [eq_self_iff_true, true_and]
      have hS : HasDerivAt (fun t : ℝ => ∑ m : Fin d,
          ((if m = k then t else (x p m : ℝ)) - (x q m : ℝ)) ^ 2)
          (∑ m : Fin d, (if m = k then 2 * ((x p k : ℝ) - (x q k : ℝ)) else 0))
          ((x p k : ℝ)) := by
        apply HasDerivAt.sum
        intro m _
        by_cases hm : m = k
        · subst hm
          simp only [eq_self_iff_true, if_true]
          have h2 := ((hasDerivAt_id ((x p m : ℝ))).sub_const ((x q m : ℝ))).pow 2
          convert h2 using 1
          simp only [id_eq]
          push_cast
          ring
        · simp only [hm, if_false]
          exact hasDerivAt_const _ _
      rw [Finset.sum_ite_eq' Finset.univ k
        (fun _ => 2 * ((x p k : ℝ) - (x q k : ℝ)))] at hS
      simp only [Finset.mem_univ, if_true] at hS
      have hex := ((hS.const_mul (-(1/2) : ℝ)).div_const
        ((RbfKernel.computeBandWidth (euclideanPairwiseDistance x)) ^ 2)).exp
      have hcollapse : (∑ m : Fin d,
          ((if m = k then ((x p k : ℝ)) else (x p m : ℝ)) - (x q m : ℝ)) ^ 2)
          = ∑ m : Fin d, ((x p m : ℝ) - (x q m : ℝ)) ^ 2 := by
        apply Finset.sum_congr rfl
        intro m _
        rcases eq_or_ne m k with h | h
        · subst h
          simp
        · simp [h]
      convert hex using 1
      rw [hcollapse]
      ring
    · rw [if_neg hp]
      simp only [hp, false_and, if_false]
      exact hasDerivAt_const _ _
  have hswap : ∀ p : Fin n, (∑ q : Fin n, (if p = i then
      Real.exp (-(1/2) * (∑ m : Fin d, ((x i m : ℝ) - (x q m : ℝ)) ^ 2) /
        (RbfKernel.computeBandWidth (euclideanPairwiseDistance x)) ^ 2) *
        (((x q k : ℝ) - (x i k : ℝ)) /
          (RbfKernel.computeBandWidth (euclideanPairwiseDistance x)) ^ 2) else 0))
      = (if p = i then (∑ q : Fin n,
        Real.exp (-(1/2) * (∑ m : Fin d, ((x i m : ℝ) - (x q m : ℝ)) ^ 2) /
          (RbfKernel.computeBandWidth (euclideanPairwiseDistance x)) ^ 2) *
          (((x q k : ℝ) - (x i k : ℝ)) /
            (RbfKernel.computeBandWidth (euclideanPairwiseDistance x)) ^ 2)) else 0) := by
    intro p
    by_cases hp : p = i <;> simp [hp]
  unfold tapeGradient
  rw [main.deriv, Finset.sum_congr rfl (fun p _ => hswap p),
    Finset.sum_ite_eq' Finset.univ i]
  simp only [Finset.mem_univ, if_true]
  apply Finset.sum_congr rfl
  intro q _
  rw [kernelValue, real_dist_cast]

/-- Two one-dimensional particles at positions 0 and 1. -/
def twoParticles : Fin 2 → Fin 1 → ℚ := ![![0], ![1]]

/-- Two coincident one-dimensional particles (both at the origin). -/
def coincidentPair : Fin 2 → Fin 1 → ℚ := ![![0], ![0]]

/-- A single one-dimensional particle (the degenerate `n = 1` input). -/
def singleParticle : Fin 1 → Fin 1 → ℚ := ![![0]]

/-- The worked example of the specification: three one-dimensional particles
at positions 0, 1 and 3. -/
def exampleParticles : Fin 3 → Fin 1 → ℚ := ![![0], ![1], ![3]]

lemma flattenPw_twoParticles :
    flattenPw (euclideanPairwiseDistance twoParticles) = [0, 1, 1, 0] := by
  norm_num [flattenPw, List.finRange, euclideanPairwiseDistance, distTensor, transposeT,
    Fin.sum_univ_one, twoParticles, List.flatMap]

lemma pwMedian_twoParticles : pwMedian twoParticles = 1/2 := by
  rw [pwMedian, flattenPw_twoParticles]
  norm_num [percentile50Midpoint, List.insertionSort, List.orderedInsert]

lemma bandwidth_twoParticles_pos :
    0 < RbfKernel.computeBandWidth (euclideanPairwiseDistance twoParticles) :=
  computeBandWidth_pos twoParticles (by rw [pwMedian_twoParticles]; norm_num)

lemma dist_twoParticles_01 : euclideanPairwiseDistance twoParticles 0 1 = 1 := by
  norm_num [euclideanPairwiseDistance, distTensor, transposeT, Fin.sum_univ_one, twoParticles]

lemma flattenPw_coincidentPair :
    flattenPw (euclideanPairwiseDistance coincidentPair) = [0, 0, 0, 0] := by
  norm_num [flattenPw, List.finRange, euclideanPairwiseDistance, distTensor, transposeT,
    Fin.sum_univ_one, coincidentPair, List.flatMap]

lemma pwMedian_coincidentPair : pwMedian coincidentPair = 0 := by
  rw [pwMedian, flattenPw_coincidentPair]
  norm_num [percentile50Midpoint, List.insertionSort, List.orderedInsert]

lemma flattenPw_singleParticle :
    flattenPw (euclideanPairwiseDistance singleParticle) = [0] := by
  norm_num [flattenPw, List.finRange, euclideanPairwiseDistance, distTensor, transposeT,
    Fin.sum_univ_one, singleParticle, List.flatMap]

lemma pwMedian_singleParticle : pwMedian singleParticle = 0 := by
  rw [pwMedian, flattenPw_singleParticle]
  norm_num [percentile50Midpoint, List.insertionSort, List.orderedInsert]

lemma flattenPw_exampleParticles :
    flattenPw (euclideanPairwiseDistance exampleParticles) = [0, 1, 9, 1, 0, 4, 9, 4, 0] := by
  norm_num [flattenPw, List.finRange, euclideanPairwiseDistance, distTensor, transposeT,
    Fin.sum_univ_one, exampleParticles, List.flatMap]

lemma pwMedian_exampleParticles : pwMedian exampleParticles = 1 := by
  rw [pwMedian, flattenPw_exampleParticles]
  norm_num [percentile50Midpoint, List.insertionSort, List.orderedInsert]

lemma bandwidth_exampleParticles :
    RbfKernel.computeBandWidth (euclideanPairwiseDistance exampleParticles) =
      1 / Real.log 4 := by
  rw [RbfKernel.computeBandWidth]
  rw [show percentile50Midpoint (flattenPw (euclideanPairwiseDistance exampleParticles)) =
    pwMedian exampleParticles from rfl, pwMedian_exampleParticles]
  norm_num

/-- C7: for every `n×d` rational particle matrix with `n ≥ 1`,
`euclideanPairwiseDistance(X)` is an `n×n` symmetric matrix whose entry
`(i,j)` is the squared Euclidean distance `Σ_k (X[i][k] − X[j][k])²`
between rows `i` and `j`. -/
theorem C7_euclideanPairwiseDistance_correct {n d : ℕ} (x : Fin n → Fin d → ℚ)
    (hn : 1 ≤ n) :
    (∀ i j, euclideanPairwiseDistance x i j = ∑ k, (x i k - x j k) ^ 2) ∧
    (∀ i j, euclideanPairwiseDistance x i j = euclideanPairwiseDistance x j i) :=
  ⟨fun i j => euclideanPairwiseDistance_eq x i j,
   fun i j => euclideanPairwiseDistance_symm x i j⟩

/-- C7 witness: the distance matrix of the two-particle configuration. -/
theorem C7_witness :
    1 ≤ 2 ∧ ((∀ i j, euclideanPairwiseDistance twoParticles i j =
        ∑ k, (twoParticles i k - twoParticles j k) ^ 2) ∧
      (∀ i j, euclideanPairwiseDistance twoParticles i j =
        euclideanPairwiseDistance twoParticles j i)) :=
  ⟨by norm_num, C7_euclideanPairwiseDistance_correct twoParticles (by norm_num)⟩

/-- C6: the worked example.  For the three one-dimensional particles at
positions 0, 1, 3: the squared-distance matrix is `[[0,1,9],[1,0,4],[9,4,0]]`,
the midpoint-interpolated median over all 9 entries is 1, the bandwidth is
`1/ln 4`, and every kernel entry equals `exp(-D[i][j]/(2·bandwidth²))`
(exactly, hence within `1e-6`). -/
theorem C6_worked_example :
    (∀ i j, euclideanPairwiseDistance exampleParticles i j =
      !![(0:ℚ),1,9; 1,0,4; 9,4,0] i j) ∧
    pwMedian exampleParticles = 1 ∧
    RbfKernel.computeBandWidth (euclideanPairwiseDistance exampleParticles) =
      1 / Real.log 4 ∧
    (∀ i j, RbfKernel.call exampleParticles i j =
      FVal.val (Real.exp (-(euclideanPairwiseDistance exampleParticles i j : ℝ) /
        (2 * (1 / Real.log 4) ^ 2)))) := by
  refine ⟨?_, pwMedian_exampleParticles, bandwidth_exampleParticles, ?_⟩
  · intro i j
    fin_cases i <;> fin_cases j <;>
      norm_num [euclideanPairwiseDistance, distTensor, transposeT, Fin.sum_univ_one,
        exampleParticles]
  · intro i j
    rw [RbfKernel.call_eq_val exampleParticles
      (by rw [pwMedian_exampleParticles]; norm_num) i j, kernelValue,
      bandwidth_exampleParticles]
    congr 1
    ring

/-- C5 counterexample: with two coincident particles (a legal particle
matrix), the diagonal kernel entry is IEEE NaN, not exactly 1 and not in
`(0,1]`, so the claim fails as stated for this `X`. -/
theorem C5_counterexample :
    RbfKernel.call coincidentPair 0 0 = FVal.nan ∧ FVal.nan ≠ FVal.val 1 := by
  have h1 := pwMedian_coincidentPair
  rw [pwMedian] at h1
  constructor
  · simp [RbfKernel.call, h1, euclideanPairwiseDistance_diag]
  · intro h
    exact FVal.noConfusion h

/-- C5 as amended: for every particle matrix whose median pairwise squared
distance is positive (equivalently, a nonzero bandwidth), the kernel matrix
returned by `RbfKernel.__call__` is symmetric, has every diagonal entry
exactly 1, and has all entries in `(0, 1]`. -/
theorem C5_amended_kernel_matrix {n d : ℕ} (x : Fin n → Fin d → ℚ)
    (hmed : 0 < pwMedian x) :
    (∀ i j, RbfKernel.call x i j = RbfKernel.call x j i) ∧
    (∀ i, RbfKernel.call x i i = FVal.val 1) ∧
    (∀ i j, ∃ r : ℝ, RbfKernel.call x i j = FVal.val r ∧ 0 < r ∧ r ≤ 1) := by
  refine ⟨fun i j => ?_, fun i => ?_, fun i j => ?_⟩
  · rw [RbfKernel.call_eq_val x hmed.ne' i j, RbfKernel.call_eq_val x hmed.ne' j i,
      kernelValue_symm]
  · rw [RbfKernel.call_eq_val x hmed.ne' i i, kernelValue_diag]
  · exact ⟨kernelValue x i j, RbfKernel.call_eq_val x hmed.ne' i j,
      kernelValue_pos x i j, kernelValue_le_one x hmed i j⟩

/-- C5 witness: the two-particle configuration has positive median and its
kernel diagonal is exactly 1. -/
theorem C5_witness :
    0 < pwMedian twoParticles ∧
    (∀ i, RbfKernel.call twoParticles i i = FVal.val 1) := by
  have h : 0 < pwMedian twoParticles := by rw [pwMedian_twoParticles]; norm_num
  exact ⟨h, (C5_amended_kernel_matrix twoParticles h).2.1⟩

/-- C4 counterexample: two coincident particles form an `n = 2` matrix with
finite entries whose bandwidth is 0, not strictly positive. -/
theorem C4_counterexample :
    RbfKernel.computeBandWidth (euclideanPairwiseDistance coincidentPair) = 0 ∧
    ¬ (0 < RbfKernel.computeBandWidth (euclideanPairwiseDistance coincidentPair)) := by
  have h := computeBandWidth_of_median_eq_zero coincidentPair pwMedian_coincidentPair
  exact ⟨h, by rw [h]; exact lt_irrefl 0⟩

/-- C4 as amended: for every particle matrix with `n ≥ 2` whose median
pairwise squared distance is positive, the bandwidth computed by
`RbfKernel.computeBandWidth` is strictly positive. -/
theorem C4_amended_bandwidth_pos {n d : ℕ} (x : Fin n → Fin d → ℚ)
    (h2 : 2 ≤ n) (hmed : 0 < pwMedian x) :
    0 < RbfKernel.computeBandWidth (euclideanPairwiseDistance x) :=
  computeBandWidth_pos x hmed

/-- C4 witness: positive bandwidth for the two-particle configuration. -/
theorem C4_witness :
    2 ≤ 2 ∧ 0 < pwMedian twoParticles ∧
    0 < RbfKernel.computeBandWidth (euclideanPairwiseDistance twoParticles) := by
  have h : 0 < pwMedian twoParticles := by rw [pwMedian_twoParticles]; norm_num
  exact ⟨le_refl 2, h, C4_amended_bandwidth_pos twoParticles (le_refl 2) h⟩

/-- C3 counterexample: scaling the two-particle configuration by `c = 2`
changes the off-diagonal kernel value, because the exponent
`-0.5·D/bandwidth²` scales by `1/c²` (distance scales by `c²` but
`bandwidth²` scales by `c⁴`), so kernel values are not unchanged. -/
theorem C3_counterexample :
    ¬ (∀ i j, RbfKernel.call (fun p m => 2 * twoParticles p m) i j =
        RbfKernel.call twoParticles i j) := by
  intro h
  have hmed : pwMedian twoParticles ≠ 0 := by rw [pwMedian_twoParticles]; norm_num
  have hmed2 : pwMedian (fun p m => 2 * twoParticles p m) ≠ 0 := by
    rw [pwMedian_smul twoParticles 2 (by norm_num), pwMedian_twoParticles]
    norm_num
  have h01 := h 0 1
  rw [RbfKernel.call_eq_val _ hmed2 0 1, RbfKernel.call_eq_val _ hmed 0 1] at h01
  injection h01 with hval
  rw [kernelValue_smul twoParticles 2 (by norm_num) 0 1] at hval
  have hc4 : ((((2:ℚ) : ℝ)) ^ 2)⁻¹ = ((4:ℝ))⁻¹ := by norm_num
  rw [hc4] at hval
  have hK0 : 0 < kernelValue twoParticles 0 1 := kernelValue_pos _ _ _
  have hK1 : kernelValue twoParticles 0 1 < 1 := by
    rw [kernelValue, Real.exp_lt_one_iff]
    apply div_neg_of_neg_of_pos
    · have hD : ((euclideanPairwiseDistance twoParticles 0 1 : ℚ) : ℝ) = 1 := by
        rw [dist_twoParticles_01]
        norm_num
      rw [hD]
      norm_num
    · have hb := bandwidth_twoParticles_pos
      positivity
  have hlt : kernelValue twoParticles 0 1 < kernelValue twoParticles 0 1 ^ ((4:ℝ))⁻¹ := by
    calc kernelValue twoParticles 0 1
        = kernelValue twoParticles 0 1 ^ (1:ℝ) := (Real.rpow_one _).symm
      _ < kernelValue twoParticles 0 1 ^ ((4:ℝ))⁻¹ :=
          Real.rpow_lt_rpow_of_exponent_gt hK0 hK1 (by norm_num)
  rw [hval] at hlt
  exact lt_irrefl _ hlt

/-- C3 as amended: scaling every coordinate by a positive constant `c`
scales every pairwise squared distance by `c²` and the bandwidth by `c²`,
but the kernel values between corresponding scaled pairs are not unchanged:
they satisfy `K'[i][j] = K[i][j]^(1/c²)`. -/
theorem C3_amended_scaling {n d : ℕ} (x : Fin n → Fin d → ℚ) (c : ℚ)
    (hc : 0 < c) (h2 : 2 ≤ n) :
    (∀ i j, euclideanPairwiseDistance (fun p m => c * x p m) i j =
      c ^ 2 * euclideanPairwiseDistance x i j) ∧
    RbfKernel.computeBandWidth (euclideanPairwiseDistance fun p m => c * x p m) =
      (c : ℝ) ^ 2 * RbfKernel.computeBandWidth (euclideanPairwiseDistance x) ∧
    (∀ i j, kernelValue (fun p m => c * x p m) i j =
      kernelValue x i j ^ (((c : ℝ) ^ 2)⁻¹)) :=
  ⟨fun i j => euclideanPairwiseDistance_smul x c i j,
   computeBandWidth_smul x c hc,
   fun i j => kernelValue_smul x c hc i j⟩

/-- C3 witness: the scaling law applied to the two-particle configuration
with `c = 2`. -/
theorem C3_witness :
    ((0:ℚ) < 2 ∧ 2 ≤ 2) ∧
    RbfKernel.computeBandWidth (euclideanPairwiseDistance fun p m => 2 * twoParticles p m) =
      ((2:ℚ) : ℝ) ^ 2 * RbfKernel.computeBandWidth (euclideanPairwiseDistance twoParticles) :=
  ⟨⟨by norm_num, le_refl 2⟩,
   (C3_amended_scaling twoParticles 2 (by norm_num) (le_refl 2)).2.1⟩

/-- C1 counterexample: for the two particles at 0 and 1 (with `n = 2` and a
strictly positive bandwidth), the second value of `SVGD.computeKernel` is NOT
the derivative `Σ_j K[i][j]·(x_j − x_i)/bandwidth²` of the per-row sum: the
code negates the tape gradient, so it is the negation of that derivative. -/
theorem C1_counterexample :
    ¬ ((SVGD.computeKernel twoParticles).2 0 0 = ∑ j, kernelValue twoParticles 0 j *
      (((twoParticles j 0 : ℝ) - (twoParticles 0 0 : ℝ)) /
        (RbfKernel.computeBandWidth (euclideanPairwiseDistance twoParticles)) ^ 2)) := by
  intro h
  have hLHS : (SVGD.computeKernel twoParticles).2 0 0 =
      -tapeGradient twoParticles 0 0 := rfl
  rw [hLHS, tapeGradient_eq twoParticles 0 0] at h
  have hS : (∑ j, kernelValue twoParticles 0 j *
      (((twoParticles j 0 : ℝ) - (twoParticles 0 0 : ℝ)) /
        (RbfKernel.computeBandWidth (euclideanPairwiseDistance twoParticles)) ^ 2))
      = kernelValue twoParticles 0 1 *
        (1 / (RbfKernel.computeBandWidth (euclideanPairwiseDistance twoParticles)) ^ 2) := by
    rw [Fin.sum_univ_two]
    have e0 : ((twoParticles 0 0 : ℚ) : ℝ) = 0 := by norm_num [twoParticles]
    have e1 : ((twoParticles 1 0 : ℚ) : ℝ) = 1 := by norm_num [twoParticles]
    rw [e0, e1]
    ring
  rw [hS] at h
  have hpos : 0 < kernelValue twoParticles 0 1 *
      (1 / (RbfKernel.computeBandWidth (euclideanPairwiseDistance twoParticles)) ^ 2) := by
    have hb := bandwidth_twoParticles_pos
    have hk := kernelValue_pos twoParticles 0 1
    positivity
  linarith

/-- C1 as amended: for every particle matrix with `n ≥ 2` and strictly
positive bandwidth, the second value returned by `SVGD.computeKernel` is the
NEGATION of the derivative of the per-row sum `Σ_j K[i][j]` with respect to
particle `i`: its row `i` equals `Σ_j K[i][j]·(x_i − x_j)/bandwidth²`
(the net repulsive push). -/
theorem C1_amended_kernel_gradient {n d : ℕ} (x : Fin n → Fin d → ℚ)
    (h2 : 2 ≤ n)
    (hbw : 0 < RbfKernel.computeBandWidth (euclideanPairwiseDistance x))
    (i : Fin n) (k : Fin d) :
    (SVGD.computeKernel x).2 i k = ∑ j, kernelValue x i j *
      (((x i k : ℝ) - (x j k : ℝ)) /
        (RbfKernel.computeBandWidth (euclideanPairwiseDistance x)) ^ 2) := by
  have hLHS : (SVGD.computeKernel x).2 i k = -tapeGradient x i k := rfl
  rw [hLHS, tapeGradient_eq x i k]
  have hneg : ∀ j : Fin n, kernelValue x i j *
      (((x i k : ℝ) - (x j k : ℝ)) /
        (RbfKernel.computeBandWidth (euclideanPairwiseDistance x)) ^ 2)
      = -(kernelValue x i j * (((x j k : ℝ) - (x i k : ℝ)) /
        (RbfKernel.computeBandWidth (euclideanPairwiseDistance x)) ^ 2)) := fun j => by
    ring
  rw [Finset.sum_congr rfl fun j _ => hneg j, Finset.sum_neg_distrib]

/-- C1 witness: the amended kernel-gradient formula at the two-particle
configuration. -/
theorem C1_witness :
    (2 ≤ 2 ∧ 0 < RbfKernel.computeBandWidth (euclideanPairwiseDistance twoParticles)) ∧
    (SVGD.computeKernel twoParticles).2 0 0 = ∑ j, kernelValue twoParticles 0 j *
      (((twoParticles 0 0 : ℝ) - (twoParticles j 0 : ℝ)) /
        (RbfKernel.computeBandWidth (euclideanPairwiseDistance twoParticles)) ^ 2) :=
  ⟨⟨le_refl 2, bandwidth_twoParticles_pos⟩,
   C1_amended_kernel_gradient twoParticles (le_refl 2) bandwidth_twoParticles_pos 0 0⟩

/-- C2: evaluating the code at the failing input `n = 1` (a single particle
at the origin).  No `ConfigurationError` is raised — the repository defines
no such error and performs no guard — instead the bandwidth is 0 and the
kernel evaluation returns NaN, which propagates silently. -/
theorem C2_no_error_on_single_particle :
    RbfKernel.computeBandWidth (euclideanPairwiseDistance singleParticle) = 0 ∧
    RbfKernel.call singleParticle 0 0 = FVal.nan := by
  have h1 := pwMedian_singleParticle
  refine ⟨computeBandWidth_of_median_eq_zero singleParticle h1, ?_⟩
  rw [pwMedian] at h1
  simp [RbfKernel.call, h1, euclideanPairwiseDistance_diag]

/-- C8: `update(X, 0)` returns `X` unchanged: with `nIterations = 0` the
loop body never runs and the particle matrix is returned as-is. -/
theorem C8_update_zero_iterations {n d : ℕ} {σ : Type} (S : SVGD n d σ)
    (x : Fin n → Fin d → ℝ) (s : σ) :
    SVGD.update S x s 0 = x := rfl

/-- C9: evaluating the code at a negative iteration count.  `range(m)` with
`m < 0` is empty, so `SVGD.update` silently returns `X` unchanged; no
`ConfigurationError` is raised (none is defined in the repository). -/
theorem C9_update_negative_iterations {n d : ℕ} {σ : Type} (S : SVGD n d σ)
    (x : Fin n → Fin d → ℝ) (s : σ) (nIterations : ℤ)
    (h : nIterations < 0) :
    SVGD.update S x s nIterations = x := by
  rw [SVGD.update, Int.toNat_of_nonpos h.le]
  rfl

/-- A concrete engine instance (trivial collaborators) used to evaluate the
update loop at concrete iteration counts. -/
noncomputable def trivialEngine : SVGD 1 1 Unit where
  computeKernelFn := fun _ => (fun _ _ => 0, fun _ _ => 0)
  logprobGradientFn := fun _ => fun _ _ => 0
  applyGradients := fun s _ x => (s, x)

/-- C9 witness: `update(X, -1)` on a concrete engine returns `X`. -/
theorem C9_witness :
    (-1 : ℤ) < 0 ∧
    SVGD.update trivialEngine (fun _ _ => 0) () (-1) = fun _ _ => 0 :=
  ⟨by norm_num,
   C9_update_negative_iterations trivialEngine (fun _ _ => 0) () (-1) (by norm_num)⟩

/-- C10: for every particle matrix whose pairwise squared-distance median is
zero, `RbfKernel.__call__` completes without raising: the bandwidth is zero,
every diagonal entry (`0/0` in the exponent) is NaN, and entries at positive
distance evaluate to `exp(-∞) = 0`; the NaN entries propagate silently to
the caller. -/
theorem C10_zero_median_nan_propagation {n d : ℕ} (x : Fin n → Fin d → ℚ)
    (hmed : pwMedian x = 0) :
    RbfKernel.computeBandWidth (euclideanPairwiseDistance x) = 0 ∧
    (∀ i, RbfKernel.call x i i = FVal.nan) ∧
    (∀ i j, euclideanPairwiseDistance x i j ≠ 0 →
      RbfKernel.call x i j = FVal.val 0) := by
  have h1 := hmed
  rw [pwMedian] at h1
  refine ⟨computeBandWidth_of_median_eq_zero x hmed, fun i => ?_, fun i j hij => ?_⟩
  · simp [RbfKernel.call, h1, euclideanPairwiseDistance_diag]
  · simp [RbfKernel.call, h1, hij]

/-- C10 witness: two coincident particles (`n = 2`, all distances zero) have
zero median, zero bandwidth and a NaN kernel diagonal. -/
theorem C10_witness :
    pwMedian coincidentPair = 0 ∧
    RbfKernel.computeBandWidth (euclideanPairwiseDistance coincidentPair) = 0 ∧
    RbfKernel.call coincidentPair 0 0 = FVal.nan :=
  ⟨pwMedian_coincidentPair,
   (C10_zero_median_nan_propagation coincidentPair pwMedian_coincidentPair).1,
   (C10_zero_median_nan_propagation coincidentPair pwMedian_coincidentPair).2.1 0⟩
